import Mathlib

/-!
Verification development for the slurm_vscode job manager.

The repository has two UI surfaces over the same job-management logic:
`src/src/providers/JobsWebviewProvider.ts` (webview selection, filtering,
sections, batch kill), `src/src/providers/SlurmJobProvider.ts` (tree view,
per-job kill confirmation, polling with completion notifications) and
`src/slurm_manager.sh` (terminal UI with its own selection and regex filter).

This file shallowly embeds the state and the operations of those sources:
JavaScript `Set<string>` becomes an insertion-ordered duplicate-free list,
JavaScript `Map<string, Job>` becomes an association list with overwrite
semantics, and the regular-expression matching performed by `new
RegExp(pattern, 'i')` / bash `[[ =~ ]]` is modelled by a small executable
regex engine covering the constructs that actually occur (literals, anchors,
grouping, alternation, repetition), with a case-insensitivity flag.
-/

namespace SlurmVscode

/-! ### Regex engine

Models the regular-expression semantics shared by ECMAScript `RegExp.test`
(used with flag `'i'` in the TypeScript sources) and POSIX ERE matching via
bash `[[ string =~ pattern ]]` (used case-sensitively in `slurm_manager.sh`).
Both perform an unanchored search; `'^'` anchors at the start of the subject.
Compilation fails (JS throws a `SyntaxError`, bash reports an error) on
malformed patterns such as an unclosed group. -/

inductive RE where
  | eps
  | char (c : Char)
  | dot
  | bol
  | eol
  | seq (a b : RE)
  | alt (a b : RE)
  | star (a : RE)
deriving Repr, DecidableEq

/-- Repetition operators applied after an atom: `*`, `+`, `?`. -/
def applyReps (r : RE) : List Char → RE × List Char
  | '*' :: rest => applyReps (RE.star r) rest
  | '+' :: rest => applyReps (RE.seq r (RE.star r)) rest
  | '?' :: rest => applyReps (RE.alt r RE.eps) rest
  | s => (r, s)

mutual

/-- Parse an alternation (`a|b`). Fuel bounds the recursion depth. -/
def parseAlt : Nat → List Char → Option (RE × List Char)
  | 0, _ => none
  | fuel + 1, s =>
    match parseSeq fuel s with
    | some (r, '|' :: rest) =>
      match parseAlt fuel rest with
      | some (r2, rest2) => some (RE.alt r r2, rest2)
      | none => none
    | other => other

/-- Parse a concatenation of atoms with their repetition operators. -/
def parseSeq : Nat → List Char → Option (RE × List Char)
  | 0, _ => none
  | fuel + 1, s =>
    match parseAtom fuel s with
    | none => some (RE.eps, s)
    | some (a, s1) =>
      match applyReps a s1 with
      | (a2, s2) =>
        match parseSeq fuel s2 with
        | some (b, s3) => some (RE.seq a2 b, s3)
        | none => none

/-- Parse a single atom: group, anchor, dot, escaped or plain character. -/
def parseAtom : Nat → List Char → Option (RE × List Char)
  | 0, _ => none
  | _ + 1, [] => none
  | fuel + 1, c :: rest =>
    if c = '(' then
      match parseAlt fuel rest with
      | some (r, ')' :: rest2) => some (r, rest2)
      | _ => none
    else if c = ')' ∨ c = '|' ∨ c = '*' ∨ c = '+' ∨ c = '?' then none
    else if c = '^' then some (RE.bol, rest)
    else if c = '$' then some (RE.eol, rest)
    else if c = '.' then some (RE.dot, rest)
    else if c = '\\' then
      match rest with
      | d :: rest2 => some (RE.char d, rest2)
      | [] => none
    else some (RE.char c, rest)

end

/-- Compile a pattern string; `none` models a thrown `SyntaxError` in the
TypeScript sources and a failing `=~` compilation in bash. -/
def compileRegex (pat : String) : Option RE :=
  let cs := pat.toList
  match parseAlt (3 * cs.length + 10) cs with
  | some (r, []) => some r
  | _ => none

/-- Character comparison, optionally case-insensitive (flag `'i'`). -/
def charEqCI (ci : Bool) (a b : Char) : Bool :=
  if ci then a.toLower == b.toLower else a == b

/-- Size of a regex term, used to bound matcher recursion depth. -/
def reSize : RE → Nat
  | RE.eps | RE.char _ | RE.dot | RE.bol | RE.eol => 1
  | RE.seq a b | RE.alt a b => reSize a + reSize b + 1
  | RE.star a => reSize a + 1

/-- Backtracking matcher in continuation-passing style over positions in the
subject; `bol` and `eol` test the absolute position, as in an unanchored
search of `RegExp.test` / `=~`. -/
def reMatch (ci : Bool) (full : List Char) : Nat → RE → Nat → (Nat → Bool) → Bool
  | 0, _, _, _ => false
  | fuel + 1, r, pos, k =>
    match r with
    | RE.eps => k pos
    | RE.char c =>
      match full[pos]? with
      | some c2 => charEqCI ci c c2 && k (pos + 1)
      | none => false
    | RE.dot =>
      match full[pos]? with
      | some _ => k (pos + 1)
      | none => false
    | RE.bol => pos == 0 && k pos
    | RE.eol => pos == full.length && k pos
    | RE.seq a b => reMatch ci full fuel a pos (fun p2 => reMatch ci full fuel b p2 k)
    | RE.alt a b => reMatch ci full fuel a pos k || reMatch ci full fuel b pos k
    | RE.star a =>
      k pos || reMatch ci full fuel a pos
        (fun p2 => decide (pos < p2) && reMatch ci full fuel (RE.star a) p2 k)

/-- Unanchored search, the semantics of `RegExp.test` and bash `=~`. -/
def regexTest (ci : Bool) (r : RE) (s : String) : Bool :=
  let cs := s.toList
  (List.range (cs.length + 1)).any fun i =>
    reMatch ci cs ((reSize r + 2) * (cs.length + 2)) r i (fun _ => true)

/-! ### Job data model

From `src/src/models/types.ts` (interface `Job`): identifier, display name,
status string, node list, optional times. -/

structure Job where
  jobId : String
  name : String
  status : String
  nodelist : String
  runningTime : Option String := none
  startTime : Option String := none
deriving Repr, DecidableEq

/-! ### Set and map embeddings

JavaScript `Set<string>`: insertion-ordered, duplicate-free; `add` appends
only when absent, `delete` removes, `Array.from` yields insertion order.
JavaScript `Map<string, Job>`: `set` overwrites in place, keys unique. -/

/-- JS `Set.add`: append the element unless already present. -/
def setAdd (s : List String) (x : String) : List String :=
  if x ∈ s then s else s ++ [x]

/-- JS `Set.delete`: remove the element. -/
def setDel (s : List String) (x : String) : List String :=
  s.filter (fun y => y ≠ x)

/-- JS `Map.set`: overwrite the value if the key exists, else append. -/
def mapSet (m : List (String × Job)) (k : String) (v : Job) : List (String × Job) :=
  if m.any (fun kv => kv.1 = k) then
    m.map (fun kv => if kv.1 = k then (k, v) else kv)
  else m ++ [(k, v)]

/-- JS `Map.has`. -/
def mapHasKey (m : List (String × Job)) (k : String) : Bool :=
  m.any (fun kv => kv.1 = k)

/-- Build the `currentJobs` map of `getSlurmJobs` from the parsed rows
(`currentJobs.set(jobId, job)` per row). -/
def buildMap (js : List Job) : List (String × Job) :=
  js.foldl (fun m j => mapSet m j.jobId j) []

/-! ### Webview state and operations

From `JobsWebviewProvider`: the private fields of the class and the handlers
of `onDidReceiveMessage` / the public methods. User-visible messages
(`showWarningMessage` / `showInformationMessage`) are collected in lists. -/

structure WebviewState where
  selectedJobs : List String
  monitoredJobs : List String
  highlightRegex : Option RE
  isConfirmingKillAll : Bool
  isPastJobsExpanded : Bool
  isScheduledJobsExpanded : Bool
deriving Repr, DecidableEq

/-- Initial field values of `JobsWebviewProvider`. -/
def initialWebview : WebviewState :=
  { selectedJobs := []
    monitoredJobs := []
    highlightRegex := none
    isConfirmingKillAll := false
    isPastJobsExpanded := false
    isScheduledJobsExpanded := false }

/-- Method `getVisibleJobs`: running and completing jobs always, pending jobs
when the scheduled section is expanded, completed or failed jobs when the
past section is expanded. -/
def getVisibleJobs (w : WebviewState) (jobs : List Job) : List Job :=
  jobs.filter (fun job => job.status == "RUNNING" || job.status == "COMPLETING") ++
  (if w.isScheduledJobsExpanded then jobs.filter (fun job => job.status == "PENDING") else []) ++
  (if w.isPastJobsExpanded then
    jobs.filter (fun job => job.status == "COMPLETED" || job.status == "FAILED")
  else [])

/-- The `matchingJobs` of the `regexEnter` handler: visible jobs whose
display name matches the compiled pattern. -/
def bulkMatching (r : RE) (jobs : List Job) (w : WebviewState) : List Job :=
  (getVisibleJobs w jobs).filter (fun job => regexTest true r job.name)

/-- Core of the `regexEnter` handler once the pattern has compiled: compute
the matching subset of the visible jobs; if all of them are selected, delete
them from the selection, otherwise add them all; clear highlighting. -/
def regexEnterWith (r : RE) (jobs : List Job) (w : WebviewState) : WebviewState :=
  if (bulkMatching r jobs w).all (fun job => decide (job.jobId ∈ w.selectedJobs)) then
    { w with
        selectedJobs :=
          (bulkMatching r jobs w).foldl (fun s job => setDel s job.jobId) w.selectedJobs,
        highlightRegex := none }
  else
    { w with
        selectedJobs :=
          (bulkMatching r jobs w).foldl (fun s job => setAdd s job.jobId) w.selectedJobs,
        highlightRegex := none }

/-- Handler for `regexEnter` messages: empty value only clears highlighting;
a pattern that fails to compile is silently ignored (`catch … // Invalid
regex, ignore`) — no state change and no user-visible message. -/
def regexEnter (value : String) (jobs : List Job) (w : WebviewState) :
    WebviewState × List String :=
  if value = "" then ({ w with highlightRegex := none }, [])
  else
    match compileRegex value with
    | none => (w, [])
    | some r => (regexEnterWith r jobs w, [])

/-- Handler for `regexChange` messages: update the highlight regex; a pattern
that fails to compile is silently ignored, with no message. -/
def regexChange (value : String) (w : WebviewState) : WebviewState × List String :=
  if value = "" then ({ w with highlightRegex := none }, [])
  else
    match compileRegex value with
    | none => (w, [])
    | some r => ({ w with highlightRegex := some r }, [])

/-- Handler for `toggleSelection` messages. -/
def toggleSelection (w : WebviewState) (jobId : String) (forceSelect : Bool) : WebviewState :=
  if forceSelect then { w with selectedJobs := setAdd w.selectedJobs jobId }
  else if jobId ∈ w.selectedJobs then { w with selectedJobs := setDel w.selectedJobs jobId }
  else { w with selectedJobs := setAdd w.selectedJobs jobId }

/-- Method `selectAll`: select every visible job, or clear the selection. -/
def selectAllOp (w : WebviewState) (jobs : List Job) (forceSelect : Bool) : WebviewState :=
  if forceSelect then
    { w with selectedJobs := (getVisibleJobs w jobs).foldl (fun s job => setAdd s job.jobId) w.selectedJobs }
  else { w with selectedJobs := [] }

/-- Handler for `killSelected` messages: warn when nothing is selected,
otherwise arm batch-kill confirmation. Only the boolean flag is stored; the
id list read here is not retained. -/
def killSelected (w : WebviewState) : WebviewState × List String :=
  let selectedJobIds := w.selectedJobs
  if selectedJobIds = [] then (w, ["No jobs selected"])
  else ({ w with isConfirmingKillAll := true }, [])

/-- Handler for `confirmKillAll` messages: re-reads the selection at confirm
time, commits the kill for exactly those ids (second component), clears the
selection and disarms. -/
def confirmKillAll (w : WebviewState) : WebviewState × List String × List String :=
  let jobsToKill := w.selectedJobs
  if jobsToKill = [] then (w, [], ["No jobs selected"])
  else
    ({ w with selectedJobs := [], isConfirmingKillAll := false },
     jobsToKill,
     ["[DEV] Would kill jobs " ++ String.intercalate " " jobsToKill])

/-- Handler for `cancelKillAll` messages. -/
def cancelKillAll (w : WebviewState) : WebviewState :=
  { w with isConfirmingKillAll := false }

/-- Highlight test of `generateJobsHtml`: `highlightRegex?.test(job.name)`. -/
def webHighlighted (r : RE) (job : Job) : Bool :=
  regexTest true r job.name

/-- Name matching as performed by every webview filter path: compile with
flag `'i'`, then test against the display name. -/
def webNameMatches (pat : String) (name : String) : Bool :=
  match compileRegex pat with
  | some r => regexTest true r name
  | none => false

/-! ### Tree provider state and operations

From `SlurmJobProvider`: kill-confirmation set, filter regex, last known
jobs map and notified-jobs set, plus the polling method `getSlurmJobs`. -/

structure ProviderState where
  jobsToConfirm : List String
  filterRegex : Option RE
  lastKnownJobs : List (String × Job)
  notifiedJobs : List String
deriving Repr, DecidableEq

/-- Initial field values of `SlurmJobProvider`. -/
def initialProvider : ProviderState :=
  { jobsToConfirm := [], filterRegex := none, lastKnownJobs := [], notifiedJobs := [] }

/-- Method `setJobToConfirm`. -/
def setJobToConfirm (p : ProviderState) (jobId : String) : ProviderState :=
  { p with jobsToConfirm := setAdd p.jobsToConfirm jobId }

/-- Method `clearJobToConfirm`. -/
def clearJobToConfirm (p : ProviderState) (jobId : String) : ProviderState :=
  { p with jobsToConfirm := setDel p.jobsToConfirm jobId }

/-- Method `isJobToConfirm`. -/
def isJobToConfirm (p : ProviderState) (jobId : String) : Bool :=
  decide (jobId ∈ p.jobsToConfirm)

/-- Method `setFilter`: an empty or null pattern clears the filter; a pattern
that fails to compile leaves the previous filter in place and shows the
error message; a valid pattern replaces the filter. -/
def setFilter (p : ProviderState) (pattern : Option String) : ProviderState × List String :=
  match pattern with
  | none => ({ p with filterRegex := none }, [])
  | some pat =>
    if pat = "" then ({ p with filterRegex := none }, [])
    else
      match compileRegex pat with
      | some r => ({ p with filterRegex := some r }, [])
      | none => (p, ["Invalid regex pattern"])

/-- Webview `handleAction` case `kill`: request kill confirmation, provided
the job id occurs in the current snapshot (`jobs.find…; if (!job) return`). -/
def handleKill (p : ProviderState) (jobs : List Job) (jobId : String) : ProviderState :=
  match jobs.find? (fun j => j.jobId == jobId) with
  | none => p
  | some job => setJobToConfirm p job.jobId

/-- Webview `handleAction` case `confirmKill`: if the job id occurs in the
snapshot, dispatch the kill (the message) and clear the confirmation entry —
with no check that the id was pending. -/
def handleConfirmKill (p : ProviderState) (jobs : List Job) (jobId : String) :
    ProviderState × List String :=
  match jobs.find? (fun j => j.jobId == jobId) with
  | none => (p, [])
  | some job =>
    (clearJobToConfirm p job.jobId, ["[DEV] Would kill job " ++ job.jobId])

/-- Webview `handleAction` case `cancelKill`. -/
def handleCancelKill (p : ProviderState) (jobs : List Job) (jobId : String) : ProviderState :=
  match jobs.find? (fun j => j.jobId == jobId) with
  | none => p
  | some job => clearJobToConfirm p job.jobId

/-! ### Polling: `getSlurmJobs`

The vanished-job loop of `getSlurmJobs` iterates over the previous
`lastKnownJobs` map; a job that disappeared from the queue, has not been
notified about, and was last seen `RUNNING` or `PENDING` triggers an `sacct`
lookup. When `sacct` produces output, a notification is shown and the job is
re-appended with its final status; in every case the id is added to
`notifiedJobs`. The `sacct` collaborator is modelled as a function from job
id to command output (`executeSlurmCommand` never throws: it returns `""` on
failure). Notifications are returned as `(jobId, message)` pairs. -/

/-- Extraction of the final status from `sacct` output:
`sacctOutput.split('\n')[0].trim()`. -/
def sacctFinalStatus (out : String) : String :=
  ((out.splitOn "\n").headD "").trim

/-- Notification text: `Job ${lastJob.name} (${jobId}) has ${…toLowerCase()}`. -/
def notifyMsg (lastJob : Job) (jobId finalStatus : String) : String :=
  "Job " ++ lastJob.name ++ " (" ++ jobId ++ ") has " ++ finalStatus.toLower

def vanishedLoop (current : List (String × Job)) (sacct : String → String) :
    List String → List (String × Job) → List String × List Job × List (String × String)
  | notified, [] => (notified, [], [])
  | notified, (jobId, lastJob) :: rest =>
    if ¬ mapHasKey current jobId ∧ jobId ∉ notified then
      if lastJob.status = "RUNNING" ∨ lastJob.status = "PENDING" then
        if sacct jobId ≠ "" then
          ((vanishedLoop current sacct (setAdd notified jobId) rest).1,
           { lastJob with status := sacctFinalStatus (sacct jobId) }
             :: (vanishedLoop current sacct (setAdd notified jobId) rest).2.1,
           (jobId, notifyMsg lastJob jobId (sacctFinalStatus (sacct jobId)))
             :: (vanishedLoop current sacct (setAdd notified jobId) rest).2.2)
        else vanishedLoop current sacct (setAdd notified jobId) rest
      else vanishedLoop current sacct notified rest
    else vanishedLoop current sacct notified rest

/-- Method `getSlurmJobs`. `squeueAvail` models the `squeue --version` check
and `parsed` the rows parsed from `squeue` output; both early returns leave
the provider state untouched. Returns the new state, the job list, and the
completion notifications shown. -/
def getSlurmJobs (p : ProviderState) (squeueAvail : Bool) (parsed : List Job)
    (sacct : String → String) : ProviderState × List Job × List (String × String) :=
  if ¬ squeueAvail then (p, [], [])
  else if parsed = [] then (p, [], [])
  else
    ({ p with lastKnownJobs := buildMap parsed,
              notifiedJobs := (vanishedLoop (buildMap parsed) sacct p.notifiedJobs p.lastKnownJobs).1 },
     parsed ++ (vanishedLoop (buildMap parsed) sacct p.notifiedJobs p.lastKnownJobs).2.1,
     (vanishedLoop (buildMap parsed) sacct p.notifiedJobs p.lastKnownJobs).2.2)

/-- One poll input: `squeue` availability, parsed snapshot, `sacct` oracle. -/
structure PollInput where
  squeueAvail : Bool
  parsed : List Job
  sacct : String → String

/-- Iterate `getSlurmJobs` over a sequence of polls, collecting the
notifications shown over the whole run. -/
def runPolls (p : ProviderState) : List PollInput → ProviderState × List (String × String)
  | [] => (p, [])
  | input :: rest =>
    ((runPolls (getSlurmJobs p input.squeueAvail input.parsed input.sacct).1 rest).1,
     (getSlurmJobs p input.squeueAvail input.parsed input.sacct).2.2 ++
       (runPolls (getSlurmJobs p input.squeueAvail input.parsed input.sacct).1 rest).2)

/-- A full poll tick as seen by the combined system: the provider ingests the
snapshot, the webview re-renders from it (the webview state is only read). -/
def pollTick (w : WebviewState) (p : ProviderState) (squeueAvail : Bool)
    (parsed : List Job) (sacct : String → String) :
    WebviewState × ProviderState × List Job × List (String × String) :=
  let step := getSlurmJobs p squeueAvail parsed sacct
  (w, step.1, step.2.1, step.2.2)

/-! ### Rendering order: `updateView` of the webview

`updateView` sorts the whole snapshot by a status-priority table (`RUNNING` 0,
`PENDING` 1, `COMPLETING` 2, `FAILED` 3, anything else 999) with
`localeCompare` on names as tie-break (modelled as code-point order), then
splits into the running, scheduled, and past sections; the past section is
truncated to the configured `jobHistorySize`. -/

/-- Status priority table of `updateView` in `JobsWebviewProvider`. -/
def statusPriorityWeb (s : String) : Nat :=
  if s = "RUNNING" then 0
  else if s = "PENDING" then 1
  else if s = "COMPLETING" then 2
  else if s = "FAILED" then 3
  else 999

/-- Code-point comparison of names, modelling `a.name.localeCompare(b.name)
<= 0`. -/
def codeLe : List Char → List Char → Bool
  | [], _ => true
  | _ :: _, [] => false
  | a :: as, b :: bs =>
    if a.toNat < b.toNat then true
    else if b.toNat < a.toNat then false
    else codeLe as bs

/-- Name order used as the sort tie-break. -/
def nameLe (a b : String) : Bool :=
  codeLe a.toList b.toList

/-- The comparator of `updateView`: status priority first, then name. -/
def jobLeB (a b : Job) : Bool :=
  statusPriorityWeb a.status < statusPriorityWeb b.status ||
    (statusPriorityWeb a.status == statusPriorityWeb b.status && nameLe a.name b.name)

/-- Propositional form of the comparator, for `List.insertionSort`. -/
def jobLe (a b : Job) : Prop :=
  jobLeB a b = true

instance : DecidableRel jobLe := fun a b => by
  unfold jobLe; infer_instance

/-- Stable sort of the snapshot, modelling the (stable) JS `Array.sort`. -/
def sortJobs (jobs : List Job) : List Job :=
  List.insertionSort jobLe jobs

/-- Section predicates used by `updateView` when splitting the sorted list. -/
def isActiveB (j : Job) : Bool :=
  j.status == "RUNNING" || j.status == "COMPLETING"

def isPendingB (j : Job) : Bool :=
  j.status == "PENDING"

def isHistB (j : Job) : Bool :=
  j.status != "RUNNING" && j.status != "PENDING" && j.status != "COMPLETING"

/-- The three job sections computed by `updateView`: running, scheduled, and
past (the latter truncated to `jobHistorySize`). -/
def updateViewSections (jobs : List Job) (historySize : Nat) :
    List Job × List Job × List Job :=
  let sortedJobs := sortJobs jobs
  (sortedJobs.filter isActiveB,
   sortedJobs.filter isPendingB,
   (sortedJobs.filter isHistB).take historySize)

/-- The ordered sequence of jobs whose rows are displayed: the running
section always, the scheduled and past sections when expanded. -/
def visibleSeq (w : WebviewState) (jobs : List Job) (historySize : Nat) : List Job :=
  let sections := updateViewSections jobs historySize
  sections.1 ++
    (if w.isScheduledJobsExpanded then sections.2.1 else []) ++
    (if w.isPastJobsExpanded then sections.2.2 else [])

/-- Modelled from the spec: the status priority order stated in §4.4 of the
specification, `Running < Completing < Pending < Failed < Completed/Finished
< anything else`; used only to state claims about the ordering rule, never
as part of the embedded code. -/
def specStatusPriority (s : String) : Nat :=
  if s = "RUNNING" then 0
  else if s = "COMPLETING" then 1
  else if s = "PENDING" then 2
  else if s = "FAILED" then 3
  else if s = "COMPLETED" ∨ s = "FINISHED" then 4
  else 5

/-! ### Terminal script: `slurm_manager.sh`

The live matching paths of the script: the `[x]` highlight marker of
`draw_menu` and the Enter handler of filter mode both match the bash regex
against the job *name* field only, case-sensitively (`[[ "$name" =~
$filter_text ]]`); membership in `selected_jobs` is tested by substring
search in the space-joined array (`" ${selected_jobs[@]} "`). -/

/-- Bash `[[ "$name" =~ $filter_text ]]`: case-sensitive ERE search; a
pattern that fails to compile makes the condition false. -/
def shellNameMatches (pat : String) (name : String) : Bool :=
  match compileRegex pat with
  | some r => regexTest false r name
  | none => false

/-- Test whether the first character list starts the second. -/
def startsWithChars : List Char → List Char → Bool
  | [], _ => true
  | _ :: _, [] => false
  | a :: as, b :: bs => a == b && startsWithChars as bs

/-- Substring search over character lists. -/
def containsChars (needle : List Char) : List Char → Bool
  | [] => needle.isEmpty
  | c :: rest => startsWithChars needle (c :: rest) || containsChars needle rest

/-- Membership test `[[ " ${selected_jobs[@]} " =~ " ${jobid} " ]]`:
substring search in the space-joined selection. -/
def shellSelContains (sel : List String) (jobId : String) : Bool :=
  containsChars (" " ++ jobId ++ " ").toList
    (" " ++ String.intercalate " " sel ++ " ").toList

/-- Enter handler of filter mode in `main`: append the id of every job whose
name matches the (case-sensitive) pattern and which is not already selected;
an empty pattern selects nothing. -/
def shellEnterSelect (jobs : List Job) (sel : List String) (filterText : String) :
    List String :=
  if filterText = "" then sel
  else
    jobs.foldl
      (fun acc j =>
        if shellNameMatches filterText j.name then
          if shellSelContains acc j.jobId then acc else acc ++ [j.jobId]
        else acc)
      sel

/-- Highlight marker of `draw_menu` in filter mode: `[x]` iff the job is not
already selected, the filter text is nonempty, and the *name* matches. -/
def shellHighlightMark (sel : List String) (filterText : String) (j : Job) : Bool :=
  !shellSelContains sel j.jobId && filterText ≠ "" && shellNameMatches filterText j.name

/-! ### Basic lemmas about the set embedding -/

theorem mem_setAdd {s : List String} {x y : String} :
    x ∈ setAdd s y ↔ x ∈ s ∨ x = y := by
  unfold setAdd
  split
  · rename_i h
    constructor
    · exact Or.inl
    · rintro (hx | rfl)
      · exact hx
      · exact h
  · simp

theorem self_mem_setAdd {s : List String} {y : String} : y ∈ setAdd s y :=
  mem_setAdd.mpr (Or.inr rfl)

theorem mem_setAdd_of_mem {s : List String} {x y : String} (h : x ∈ s) : x ∈ setAdd s y :=
  mem_setAdd.mpr (Or.inl h)

theorem setAdd_eq_append (s : List String) (y : String) :
    ∃ e, setAdd s y = s ++ e := by
  unfold setAdd
  split
  · exact ⟨[], by simp⟩
  · exact ⟨[y], rfl⟩

theorem setAdd_idem (s : List String) (y : String) :
    setAdd (setAdd s y) y = setAdd s y := by
  show (if y ∈ setAdd s y then setAdd s y else setAdd s y ++ [y]) = setAdd s y
  exact if_pos self_mem_setAdd

theorem mem_setDel {s : List String} {x y : String} :
    x ∈ setDel s y ↔ x ∈ s ∧ x ≠ y := by
  simp [setDel]

theorem mem_foldl_setDel (L : List Job) (sel : List String) (x : String) :
    x ∈ L.foldl (fun s job => setDel s job.jobId) sel ↔
      x ∈ sel ∧ x ∉ L.map Job.jobId := by
  induction L generalizing sel with
  | nil => simp
  | cons j L ih =>
    simp only [List.foldl_cons, ih, mem_setDel, List.map_cons, List.mem_cons]
    tauto

theorem mem_foldl_setAdd (L : List Job) (sel : List String) (x : String) :
    x ∈ L.foldl (fun s job => setAdd s job.jobId) sel ↔
      x ∈ sel ∨ x ∈ L.map Job.jobId := by
  induction L generalizing sel with
  | nil => simp
  | cons j L ih =>
    simp only [List.foldl_cons, ih, mem_setAdd, List.map_cons, List.mem_cons]
    tauto

/-! ### The sort comparator is total and transitive -/

theorem codeLe_total : ∀ as bs : List Char, codeLe as bs = true ∨ codeLe bs as = true := by
  intro as
  induction as with
  | nil => intro bs; left; rfl
  | cons a as ih =>
    intro bs
    cases bs with
    | nil => right; rfl
    | cons b bs =>
      by_cases hab : a.toNat < b.toNat
      · left; simp [codeLe, hab]
      · by_cases hba : b.toNat < a.toNat
        · right; simp [codeLe, hba]
        · rcases ih bs with h | h
          · left; simp [codeLe, hab, hba, h]
          · right; simp [codeLe, hab, hba, h]

theorem codeLe_trans : ∀ as bs cs : List Char,
    codeLe as bs = true → codeLe bs cs = true → codeLe as cs = true := by
  intro as
  induction as with
  | nil => intro bs cs _ _; rfl
  | cons a as ih =>
    intro bs cs hab hbc
    cases bs with
    | nil => simp [codeLe] at hab
    | cons b bs =>
      cases cs with
      | nil => simp [codeLe] at hbc
      | cons c cs =>
        simp only [codeLe] at hab hbc ⊢
        split at hab
        · rename_i h1
          split at hbc
          · rename_i h2
            simp [show a.toNat < c.toNat from Nat.lt_trans h1 h2]
          · split at hbc
            · exact absurd hbc (by simp)
            · rename_i h2 h3
              have hbc' : b.toNat = c.toNat := Nat.le_antisymm (Nat.le_of_not_lt h3) (Nat.le_of_not_lt h2)
              simp [show a.toNat < c.toNat from hbc' ▸ h1]
        · split at hab
          · exact absurd hab (by simp)
          · rename_i h1 h2
            have hab' : a.toNat = b.toNat := Nat.le_antisymm (Nat.le_of_not_lt h2) (Nat.le_of_not_lt h1)
            split at hbc
            · rename_i h3
              simp [show a.toNat < c.toNat from hab' ▸ h3]
            · split at hbc
              · exact absurd hbc (by simp)
              · rename_i h3 h4
                have h5 : ¬ a.toNat < c.toNat := by omega
                have h6 : ¬ c.toNat < a.toNat := by omega
                simp [h5, h6]
                exact ih bs cs hab hbc

theorem nameLe_total (a b : String) : nameLe a b = true ∨ nameLe b a = true :=
  codeLe_total a.toList b.toList

theorem nameLe_trans {a b c : String} (h1 : nameLe a b = true) (h2 : nameLe b c = true) :
    nameLe a c = true :=
  codeLe_trans a.toList b.toList c.toList h1 h2

theorem jobLe_iff (a b : Job) :
    jobLe a b ↔ statusPriorityWeb a.status < statusPriorityWeb b.status ∨
      (statusPriorityWeb a.status = statusPriorityWeb b.status ∧ nameLe a.name b.name = true) := by
  simp [jobLe, jobLeB]

instance : IsTotal Job jobLe := by
  constructor
  intro a b
  rcases Nat.lt_trichotomy (statusPriorityWeb a.status) (statusPriorityWeb b.status) with h | h | h
  · exact Or.inl ((jobLe_iff a b).mpr (Or.inl h))
  · rcases nameLe_total a.name b.name with hn | hn
    · exact Or.inl ((jobLe_iff a b).mpr (Or.inr ⟨h, hn⟩))
    · exact Or.inr ((jobLe_iff b a).mpr (Or.inr ⟨h.symm, hn⟩))
  · exact Or.inr ((jobLe_iff b a).mpr (Or.inl h))

instance : IsTrans Job jobLe := by
  constructor
  intro a b c hab hbc
  rcases (jobLe_iff a b).mp hab with h1 | ⟨h1, hn1⟩ <;>
    rcases (jobLe_iff b c).mp hbc with h2 | ⟨h2, hn2⟩
  · exact (jobLe_iff a c).mpr (Or.inl (Nat.lt_trans h1 h2))
  · exact (jobLe_iff a c).mpr (Or.inl (h2 ▸ h1))
  · exact (jobLe_iff a c).mpr (Or.inl (h1 ▸ h2))
  · exact (jobLe_iff a c).mpr (Or.inr ⟨h1.trans h2, nameLe_trans hn1 hn2⟩)

theorem sortJobs_sorted (l : List Job) : List.Sorted jobLe (sortJobs l) :=
  List.sorted_insertionSort jobLe l

theorem sortJobs_perm (l : List Job) : List.Perm (sortJobs l) l :=
  List.perm_insertionSort jobLe l

/-! ### Lemmas about the vanished-job notification loop -/

theorem vanishedLoop_notified_append (c : List (String × Job)) (sacct : String → String) :
    ∀ (entries : List (String × Job)) (notified : List String),
      ∃ e, (vanishedLoop c sacct notified entries).1 = notified ++ e := by
  intro entries
  induction entries with
  | nil => intro notified; exact ⟨[], by simp [vanishedLoop]⟩
  | cons kv rest ih =>
    intro notified
    obtain ⟨jobId, lastJob⟩ := kv
    by_cases hg : ¬ mapHasKey c jobId = true ∧ jobId ∉ notified
    case neg => simpa only [vanishedLoop, if_neg hg] using ih notified
    by_cases hs : lastJob.status = "RUNNING" ∨ lastJob.status = "PENDING"
    case neg => simpa only [vanishedLoop, if_pos hg, if_neg hs] using ih notified
    obtain ⟨e1, he1⟩ := setAdd_eq_append notified jobId
    obtain ⟨e2, he2⟩ := ih (setAdd notified jobId)
    by_cases ho : sacct jobId ≠ ""
    · refine ⟨e1 ++ e2, ?_⟩
      simp only [vanishedLoop, if_pos hg, if_pos hs, if_pos ho]
      rw [he2, he1, List.append_assoc]
    · refine ⟨e1 ++ e2, ?_⟩
      simp only [vanishedLoop, if_pos hg, if_pos hs, if_neg ho]
      rw [he2, he1, List.append_assoc]

theorem vanishedLoop_mem_notified (c : List (String × Job)) (sacct : String → String)
    (entries : List (String × Job)) (notified : List String) (x : String)
    (h : x ∈ notified) : x ∈ (vanishedLoop c sacct notified entries).1 := by
  obtain ⟨e, he⟩ := vanishedLoop_notified_append c sacct entries notified
  rw [he]
  exact List.mem_append_left _ h

theorem vanishedLoop_msgs_fresh (c : List (String × Job)) (sacct : String → String) :
    ∀ (entries : List (String × Job)) (notified : List String) (id m : String),
      (id, m) ∈ (vanishedLoop c sacct notified entries).2.2 → id ∉ notified := by
  intro entries
  induction entries with
  | nil => intro notified id m h; simp [vanishedLoop] at h
  | cons kv rest ih =>
    intro notified id m h
    obtain ⟨jobId, lastJob⟩ := kv
    by_cases hg : ¬ mapHasKey c jobId = true ∧ jobId ∉ notified
    case neg =>
      rw [vanishedLoop, if_neg hg] at h
      exact ih notified id m h
    by_cases hs : lastJob.status = "RUNNING" ∨ lastJob.status = "PENDING"
    case neg =>
      rw [vanishedLoop, if_pos hg, if_neg hs] at h
      exact ih notified id m h
    by_cases ho : sacct jobId ≠ ""
    · rw [vanishedLoop, if_pos hg, if_pos hs, if_pos ho] at h
      simp only [List.mem_cons] at h
      rcases h with h | h
      · have hid : id = jobId := congrArg Prod.fst h
        subst hid
        exact hg.2
      · intro hmem
        exact ih (setAdd notified jobId) id m h (mem_setAdd_of_mem hmem)
    · rw [vanishedLoop, if_pos hg, if_pos hs, if_neg ho] at h
      intro hmem
      exact ih (setAdd notified jobId) id m h (mem_setAdd_of_mem hmem)

theorem vanishedLoop_msgs_in_final (c : List (String × Job)) (sacct : String → String) :
    ∀ (entries : List (String × Job)) (notified : List String) (id m : String),
      (id, m) ∈ (vanishedLoop c sacct notified entries).2.2 →
        id ∈ (vanishedLoop c sacct notified entries).1 := by
  intro entries
  induction entries with
  | nil => intro notified id m h; simp [vanishedLoop] at h
  | cons kv rest ih =>
    intro notified id m h
    obtain ⟨jobId, lastJob⟩ := kv
    by_cases hg : ¬ mapHasKey c jobId = true ∧ jobId ∉ notified
    case neg =>
      rw [vanishedLoop, if_neg hg] at h ⊢
      exact ih notified id m h
    by_cases hs : lastJob.status = "RUNNING" ∨ lastJob.status = "PENDING"
    case neg =>
      rw [vanishedLoop, if_pos hg, if_neg hs] at h ⊢
      exact ih notified id m h
    by_cases ho : sacct jobId ≠ ""
    · rw [vanishedLoop, if_pos hg, if_pos hs, if_pos ho] at h ⊢
      simp only [List.mem_cons] at h
      rcases h with h | h
      · have hid : id = jobId := congrArg Prod.fst h
        subst hid
        exact vanishedLoop_mem_notified c sacct rest (setAdd notified id) id self_mem_setAdd
      · exact ih (setAdd notified jobId) id m h
    · rw [vanishedLoop, if_pos hg, if_pos hs, if_neg ho] at h ⊢
      exact ih (setAdd notified jobId) id m h

theorem vanishedLoop_msgs_nodup (c : List (String × Job)) (sacct : String → String) :
    ∀ (entries : List (String × Job)) (notified : List String),
      ((vanishedLoop c sacct notified entries).2.2.map Prod.fst).Nodup := by
  intro entries
  induction entries with
  | nil => intro notified; simp [vanishedLoop]
  | cons kv rest ih =>
    intro notified
    obtain ⟨jobId, lastJob⟩ := kv
    by_cases hg : ¬ mapHasKey c jobId = true ∧ jobId ∉ notified
    case neg =>
      rw [vanishedLoop, if_neg hg]
      exact ih notified
    by_cases hs : lastJob.status = "RUNNING" ∨ lastJob.status = "PENDING"
    case neg =>
      rw [vanishedLoop, if_pos hg, if_neg hs]
      exact ih notified
    by_cases ho : sacct jobId ≠ ""
    · rw [vanishedLoop, if_pos hg, if_pos hs, if_pos ho]
      simp only [List.map_cons, List.nodup_cons]
      refine ⟨?_, ih (setAdd notified jobId)⟩
      intro hmem
      obtain ⟨⟨id, m⟩, hm, hfst⟩ := List.mem_map.mp hmem
      have hni : id ∉ setAdd notified jobId :=
        vanishedLoop_msgs_fresh c sacct rest (setAdd notified jobId) id m hm
      exact hni (hfst ▸ self_mem_setAdd)
    · rw [vanishedLoop, if_pos hg, if_pos hs, if_neg ho]
      exact ih (setAdd notified jobId)

/-! ### Lemmas about `getSlurmJobs` and poll sequences -/

theorem getSlurmJobs_notified_append (p : ProviderState) (avail : Bool) (parsed : List Job)
    (sacct : String → String) :
    ∃ e, (getSlurmJobs p avail parsed sacct).1.notifiedJobs = p.notifiedJobs ++ e := by
  unfold getSlurmJobs
  split
  · exact ⟨[], by simp⟩
  · split
    · exact ⟨[], by simp⟩
    · exact vanishedLoop_notified_append (buildMap parsed) sacct p.lastKnownJobs p.notifiedJobs

theorem getSlurmJobs_msgs_fresh (p : ProviderState) (avail : Bool) (parsed : List Job)
    (sacct : String → String) (id m : String)
    (h : (id, m) ∈ (getSlurmJobs p avail parsed sacct).2.2) : id ∉ p.notifiedJobs := by
  unfold getSlurmJobs at h
  split at h
  · simp at h
  · split at h
    · simp at h
    · exact vanishedLoop_msgs_fresh (buildMap parsed) sacct p.lastKnownJobs p.notifiedJobs id m h

theorem getSlurmJobs_msgs_in_final (p : ProviderState) (avail : Bool) (parsed : List Job)
    (sacct : String → String) (id m : String)
    (h : (id, m) ∈ (getSlurmJobs p avail parsed sacct).2.2) :
    id ∈ (getSlurmJobs p avail parsed sacct).1.notifiedJobs := by
  unfold getSlurmJobs at h ⊢
  split at h
  · simp at h
  · split at h
    · simp at h
    · rename_i h1 h2
      rw [if_neg h1, if_neg h2]
      exact vanishedLoop_msgs_in_final (buildMap parsed) sacct p.lastKnownJobs p.notifiedJobs id m h

theorem getSlurmJobs_msgs_nodup (p : ProviderState) (avail : Bool) (parsed : List Job)
    (sacct : String → String) :
    ((getSlurmJobs p avail parsed sacct).2.2.map Prod.fst).Nodup := by
  unfold getSlurmJobs
  split
  · simp
  · split
    · simp
    · exact vanishedLoop_msgs_nodup (buildMap parsed) sacct p.lastKnownJobs p.notifiedJobs

theorem runPolls_notified_append :
    ∀ (polls : List PollInput) (p : ProviderState),
      ∃ e, (runPolls p polls).1.notifiedJobs = p.notifiedJobs ++ e := by
  intro polls
  induction polls with
  | nil => intro p; exact ⟨[], by simp [runPolls]⟩
  | cons input rest ih =>
    intro p
    obtain ⟨e1, he1⟩ := getSlurmJobs_notified_append p input.squeueAvail input.parsed input.sacct
    obtain ⟨e2, he2⟩ := ih (getSlurmJobs p input.squeueAvail input.parsed input.sacct).1
    refine ⟨e1 ++ e2, ?_⟩
    show (runPolls (getSlurmJobs p input.squeueAvail input.parsed input.sacct).1 rest).1.notifiedJobs
      = p.notifiedJobs ++ (e1 ++ e2)
    rw [he2, he1, List.append_assoc]

theorem runPolls_invariant :
    ∀ (polls : List PollInput) (p : ProviderState),
      ((runPolls p polls).2.map Prod.fst).Nodup ∧
      (∀ id m, (id, m) ∈ (runPolls p polls).2 →
        id ∉ p.notifiedJobs ∧ id ∈ (runPolls p polls).1.notifiedJobs) := by
  intro polls
  induction polls with
  | nil => intro p; refine ⟨by simp [runPolls], ?_⟩; intro id m h; simp [runPolls] at h
  | cons input rest ih =>
    intro p
    have hstep_nodup := getSlurmJobs_msgs_nodup p input.squeueAvail input.parsed input.sacct
    obtain ⟨ih_nodup, ih_mem⟩ := ih (getSlurmJobs p input.squeueAvail input.parsed input.sacct).1
    obtain ⟨erest, herest⟩ :=
      runPolls_notified_append rest (getSlurmJobs p input.squeueAvail input.parsed input.sacct).1
    have hmsgs : (runPolls p (input :: rest)).2 =
        (getSlurmJobs p input.squeueAvail input.parsed input.sacct).2.2 ++
          (runPolls (getSlurmJobs p input.squeueAvail input.parsed input.sacct).1 rest).2 := rfl
    have hfinal : (runPolls p (input :: rest)).1 =
        (runPolls (getSlurmJobs p input.squeueAvail input.parsed input.sacct).1 rest).1 := rfl
    constructor
    · rw [hmsgs, List.map_append, List.nodup_append]
      refine ⟨hstep_nodup, ih_nodup, ?_⟩
      intro a ha hb
      obtain ⟨⟨id1, m1⟩, hm1, rfl⟩ := List.mem_map.mp ha
      obtain ⟨⟨id2, m2⟩, hm2, heq⟩ := List.mem_map.mp hb
      have h1in : id1 ∈ (getSlurmJobs p input.squeueAvail input.parsed input.sacct).1.notifiedJobs :=
        getSlurmJobs_msgs_in_final p input.squeueAvail input.parsed input.sacct id1 m1 hm1
      have h2out := (ih_mem id2 m2 hm2).1
      have hid : id1 = id2 := heq.symm
      exact h2out (hid ▸ h1in)
    · intro id m h
      rw [hmsgs] at h
      rcases List.mem_append.mp h with h | h
      · refine ⟨getSlurmJobs_msgs_fresh p input.squeueAvail input.parsed input.sacct id m h, ?_⟩
        rw [hfinal, herest]
        exact List.mem_append_left _
          (getSlurmJobs_msgs_in_final p input.squeueAvail input.parsed input.sacct id m h)
      · obtain ⟨hfresh, hin⟩ := ih_mem id m h
        refine ⟨?_, by rw [hfinal]; exact hin⟩
        intro hmem
        obtain ⟨e1, he1⟩ := getSlurmJobs_notified_append p input.squeueAvail input.parsed input.sacct
        exact hfresh (he1 ▸ List.mem_append_left _ hmem)

/-! ### Claim theorems C9 and C10 -/

/-- Claim C9: ingesting a new snapshot leaves the selection set unchanged —
for every webview state, provider state, snapshot (including one from which
a selected identifier has vanished) and `sacct` oracle, the poll tick
returns the webview state, hence every previously selected identifier is
still selected afterwards. -/
theorem c9_selection_survives_poll (w : WebviewState) (p : ProviderState) (avail : Bool)
    (parsed : List Job) (sacct : String → String) :
    (pollTick w p avail parsed sacct).1.selectedJobs = w.selectedJobs ∧
    (pollTick w p avail parsed sacct).1 = w :=
  ⟨rfl, rfl⟩

/-- Claim C10: a job that vanishes from the polled queue triggers at most one
completion notification over the engine lifetime: over any sequence of polls
from any starting state, the notified job ids are pairwise distinct; the
notified-set only ever grows (ids are appended, never removed); and the other
provider operations never touch the notified set. -/
theorem c10_notify_at_most_once :
    (∀ (p : ProviderState) (polls : List PollInput),
      ((runPolls p polls).2.map Prod.fst).Nodup) ∧
    (∀ (p : ProviderState) (polls : List PollInput),
      ∃ e, (runPolls p polls).1.notifiedJobs = p.notifiedJobs ++ e) ∧
    (∀ (p : ProviderState) (pat : Option String),
      (setFilter p pat).1.notifiedJobs = p.notifiedJobs) ∧
    (∀ (p : ProviderState) (id : String),
      (setJobToConfirm p id).notifiedJobs = p.notifiedJobs ∧
      (clearJobToConfirm p id).notifiedJobs = p.notifiedJobs) := by
  refine ⟨fun p polls => (runPolls_invariant polls p).1,
          fun p polls => runPolls_notified_append polls p,
          ?_, fun p id => ⟨rfl, rfl⟩⟩
  intro p pat
  cases pat with
  | none => rfl
  | some s =>
    by_cases hs : s = ""
    · simp [setFilter, hs]
    · cases hc : compileRegex s with
      | some r => simp [setFilter, hs, hc]
      | none => simp [setFilter, hs, hc]

/-! ### Lemmas about the bulk-select toggle -/

/-- The job ids of the matching subset, the set `M` acted on by the toggle. -/
def bulkMatchIds (r : RE) (jobs : List Job) (w : WebviewState) : List String :=
  (bulkMatching r jobs w).map Job.jobId

theorem getVisibleJobs_regexEnterWith (r : RE) (jobs jobs2 : List Job) (w : WebviewState) :
    getVisibleJobs (regexEnterWith r jobs w) jobs2 = getVisibleJobs w jobs2 := by
  unfold regexEnterWith getVisibleJobs
  split <;> rfl

theorem bulkMatchIds_regexEnterWith (r r2 : RE) (jobs jobs2 : List Job) (w : WebviewState) :
    bulkMatchIds r2 jobs2 (regexEnterWith r jobs w) = bulkMatchIds r2 jobs2 w := by
  unfold bulkMatchIds bulkMatching
  rw [getVisibleJobs_regexEnterWith]

theorem all_selected_iff (r : RE) (jobs : List Job) (w : WebviewState) :
    ((bulkMatching r jobs w).all (fun job => decide (job.jobId ∈ w.selectedJobs)) = true) ↔
      ∀ x ∈ bulkMatchIds r jobs w, x ∈ w.selectedJobs := by
  simp [bulkMatchIds, List.all_eq_true]

theorem regexEnterWith_mem (r : RE) (jobs : List Job) (w : WebviewState) (id : String) :
    id ∈ (regexEnterWith r jobs w).selectedJobs ↔
      (if ∀ x ∈ bulkMatchIds r jobs w, x ∈ w.selectedJobs
       then id ∈ w.selectedJobs ∧ id ∉ bulkMatchIds r jobs w
       else id ∈ w.selectedJobs ∨ id ∈ bulkMatchIds r jobs w) := by
  unfold regexEnterWith
  by_cases hall : (bulkMatching r jobs w).all (fun job => decide (job.jobId ∈ w.selectedJobs)) = true
  · rw [if_pos hall, if_pos ((all_selected_iff r jobs w).mp hall)]
    exact mem_foldl_setDel (bulkMatching r jobs w) w.selectedJobs id
  · rw [if_neg hall, if_neg (fun hc => hall ((all_selected_iff r jobs w).mpr hc))]
    exact mem_foldl_setAdd (bulkMatching r jobs w) w.selectedJobs id

/-! ### Claim C6 -/

/-- Claim C6 (amended): the single invocation of the bulk toggle removes the
matching set `M` from the selection when all of `M` is selected and adds all
of `M` otherwise; the double invocation restores the selection (as a set of
ids) whenever `M` was entirely selected or entirely unselected beforehand.
(With partial overlap the double invocation instead removes `M`, see the
counterexample.) -/
theorem c6_amended_bulk_toggle (r : RE) (jobs : List Job) (w : WebviewState) :
    ((∀ x ∈ bulkMatchIds r jobs w, x ∈ w.selectedJobs) →
      ∀ id, id ∈ (regexEnterWith r jobs w).selectedJobs ↔
        id ∈ w.selectedJobs ∧ id ∉ bulkMatchIds r jobs w) ∧
    ((¬ ∀ x ∈ bulkMatchIds r jobs w, x ∈ w.selectedJobs) →
      ∀ id, id ∈ (regexEnterWith r jobs w).selectedJobs ↔
        id ∈ w.selectedJobs ∨ id ∈ bulkMatchIds r jobs w) ∧
    (((∀ x ∈ bulkMatchIds r jobs w, x ∈ w.selectedJobs) ∨
      (∀ x ∈ bulkMatchIds r jobs w, x ∉ w.selectedJobs)) →
      ∀ id, id ∈ (regexEnterWith r jobs (regexEnterWith r jobs w)).selectedJobs ↔
        id ∈ w.selectedJobs) := by
  refine ⟨?_, ?_, ?_⟩
  · intro hall id
    rw [regexEnterWith_mem, if_pos hall]
  · intro hnall id
    rw [regexEnterWith_mem, if_neg hnall]
  · intro h id
    have hM1 := bulkMatchIds_regexEnterWith r r jobs jobs w
    by_cases hall : ∀ x ∈ bulkMatchIds r jobs w, x ∈ w.selectedJobs
    · have w1mem : ∀ x, x ∈ (regexEnterWith r jobs w).selectedJobs ↔
          x ∈ w.selectedJobs ∧ x ∉ bulkMatchIds r jobs w := fun x => by
        rw [regexEnterWith_mem, if_pos hall]
      by_cases hM0 : ∀ x ∈ bulkMatchIds r jobs w, x ∈ (regexEnterWith r jobs w).selectedJobs
      · rw [regexEnterWith_mem, hM1, if_pos hM0, w1mem id]
        constructor
        · rintro ⟨⟨hid, -⟩, -⟩
          exact hid
        · intro hid
          have hidM : id ∉ bulkMatchIds r jobs w := fun hm =>
            ((w1mem id).mp (hM0 id hm)).2 hm
          exact ⟨⟨hid, hidM⟩, hidM⟩
      · rw [regexEnterWith_mem, hM1, if_neg hM0, w1mem id]
        constructor
        · rintro (⟨hid, -⟩ | hidM)
          · exact hid
          · exact hall id hidM
        · intro hid
          by_cases hm : id ∈ bulkMatchIds r jobs w
          · exact Or.inr hm
          · exact Or.inl ⟨hid, hm⟩
    · have hdisj : ∀ x ∈ bulkMatchIds r jobs w, x ∉ w.selectedJobs := h.resolve_left hall
      have w1mem : ∀ x, x ∈ (regexEnterWith r jobs w).selectedJobs ↔
          x ∈ w.selectedJobs ∨ x ∈ bulkMatchIds r jobs w := fun x => by
        rw [regexEnterWith_mem, if_neg hall]
      have hM0 : ∀ x ∈ bulkMatchIds r jobs w, x ∈ (regexEnterWith r jobs w).selectedJobs :=
        fun x hx => (w1mem x).mpr (Or.inr hx)
      rw [regexEnterWith_mem, hM1, if_pos hM0, w1mem id]
      constructor
      · rintro ⟨hid | hm, hnm⟩
        · exact hid
        · exact absurd hm hnm
      · intro hid
        exact ⟨Or.inl hid, fun hm => hdisj id hm hid⟩

/-- Fixture jobs and state for the bulk-toggle claim: two running jobs whose
names both match the pattern `a`, with only the first selected. -/
def jobA1 : Job := { jobId := "1", name := "a1", status := "RUNNING", nodelist := "" }

def jobA2 : Job := { jobId := "2", name := "a2", status := "RUNNING", nodelist := "" }

def wOneSel : WebviewState := { initialWebview with selectedJobs := ["1"] }

/-- Claim C6 (counterexample): with jobs `a1`, `a2` visible, pattern `a`
matching both and only `a1` selected, two consecutive bulk toggles empty the
selection instead of restoring `a1` — the double invocation is not the
identity when the matching set partially overlaps the selection. -/
theorem c6_counterexample :
    "1" ∈ wOneSel.selectedJobs ∧
    "1" ∉ (regexEnter "a" [jobA1, jobA2]
      (regexEnter "a" [jobA1, jobA2] wOneSel).1).1.selectedJobs := by
  decide

/-- Witness for the amended bulk-toggle claim: an entirely unselected
matching set, where the double invocation does restore the selection. -/
theorem c6_witness :
    "1" ∈ (regexEnterWith (RE.char 'a') [jobA1]
        (regexEnterWith (RE.char 'a') [jobA1] initialWebview)).selectedJobs ↔
      "1" ∈ initialWebview.selectedJobs :=
  (c6_amended_bulk_toggle (RE.char 'a') [jobA1] initialWebview).2.2
    (Or.inr (by decide)) "1"

/-! ### Claim C2 -/

theorem shellEnterSelect_mem (pat : String) :
    ∀ (jobs : List Job) (sel : List String) (id : String),
      id ∈ shellEnterSelect jobs sel pat →
        id ∈ sel ∨ ∃ j ∈ jobs, j.jobId = id ∧ shellNameMatches pat j.name = true := by
  intro jobs
  by_cases hpat : pat = ""
  · intro sel id h
    unfold shellEnterSelect at h
    rw [if_pos hpat] at h
    exact Or.inl h
  · have key : ∀ (js : List Job) (sel : List String) (id : String),
        id ∈ js.foldl
          (fun acc j =>
            if shellNameMatches pat j.name then
              if shellSelContains acc j.jobId then acc else acc ++ [j.jobId]
            else acc) sel →
          id ∈ sel ∨ ∃ j ∈ js, j.jobId = id ∧ shellNameMatches pat j.name = true := by
      intro js
      induction js with
      | nil => intro sel id h; exact Or.inl h
      | cons j rest ih =>
        intro sel id h
        simp only [List.foldl_cons] at h
        rcases ih _ id h with hin | ⟨j2, hj2, hid, hm⟩
        · by_cases hmatch : shellNameMatches pat j.name = true
          · rw [if_pos hmatch] at hin
            by_cases hc : shellSelContains sel j.jobId = true
            · rw [if_pos hc] at hin
              exact Or.inl hin
            · rw [if_neg hc] at hin
              rcases List.mem_append.mp hin with hin | hin
              · exact Or.inl hin
              · exact Or.inr ⟨j, List.mem_cons_self j rest,
                  (List.mem_singleton.mp hin).symm, hmatch⟩
          · rw [if_neg hmatch] at hin
            exact Or.inl hin
        · exact Or.inr ⟨j2, List.mem_cons_of_mem j hj2, hid, hm⟩
    intro sel id h
    unfold shellEnterSelect at h
    rw [if_neg hpat] at h
    exact key jobs sel id h

/-- Claim C2 (amended): every live matching path evaluates the pattern
against the display name only — the webview bulk toggle changes membership
only for ids of visible jobs whose *name* matches case-insensitively, the
webview highlight depends only on the name, and the terminal script's
Enter-select only ever adds ids of jobs whose *name* matches its
case-sensitive bash pattern. (The webview is case-insensitive but the
terminal script is case-sensitive, see the counterexample.) -/
theorem c2_amended_name_only_matching :
    (∀ (r : RE) (jobs : List Job) (w : WebviewState) (id : String),
      (id ∈ (regexEnterWith r jobs w).selectedJobs ↔ id ∈ w.selectedJobs) ∨
        ∃ j ∈ getVisibleJobs w jobs, j.jobId = id ∧ regexTest true r j.name = true) ∧
    (∀ (r : RE) (j j2 : Job), j.name = j2.name → webHighlighted r j = webHighlighted r j2) ∧
    (∀ (pat : String) (jobs : List Job) (sel : List String) (id : String),
      id ∈ shellEnterSelect jobs sel pat →
        id ∈ sel ∨ ∃ j ∈ jobs, j.jobId = id ∧ shellNameMatches pat j.name = true) := by
  refine ⟨?_, ?_, fun pat => shellEnterSelect_mem pat⟩
  · intro r jobs w id
    by_cases hm : id ∈ bulkMatchIds r jobs w
    · right
      obtain ⟨j, hj, hid⟩ := List.mem_map.mp hm
      have hj2 := List.mem_filter.mp hj
      exact ⟨j, hj2.1, hid, by simpa using hj2.2⟩
    · left
      rw [regexEnterWith_mem]
      split <;> simp [hm]
  · intro r j j2 h
    unfold webHighlighted
    rw [h]

/-- Fixture for the matching-scope claim: a running job whose display name
`Train` matches the pattern `train` only case-insensitively. -/
def jobTrainFx : Job := { jobId := "1", name := "Train", status := "RUNNING", nodelist := "" }

/-- Claim C2 (counterexample): with the pattern `train` and the job named
`Train`, the case-insensitive (webview) semantics matches, yet the terminal
script's Enter bulk-select selects nothing and its highlight marker stays
off — matching is not case-insensitive in every filter path. -/
theorem c2_counterexample :
    webNameMatches "train" jobTrainFx.name = true ∧
    shellEnterSelect [jobTrainFx] [] "train" = [] ∧
    shellHighlightMark [] "train" jobTrainFx = false := by
  decide

/-- Witness for the amended name-only matching claim, on the terminal path:
pattern `Tra` selects job `1`, and the theorem recovers that its name
matches. -/
theorem c2_witness :
    "1" ∈ ([] : List String) ∨
      ∃ j ∈ [jobTrainFx], j.jobId = "1" ∧ shellNameMatches "Tra" j.name = true :=
  c2_amended_name_only_matching.2.2 "Tra" [jobTrainFx] [] "1" (by decide)

/-! ### Claim C1 -/

/-- Claim C1 (amended): arming the batch kill stores only the confirmation
flag — not the target list — and confirming commits exactly the selection as
it stands at confirm time; selection changes between arm and confirm
therefore do change the committed set. -/
theorem c1_amended_commit_is_live_selection (w : WebviewState) (h : w.selectedJobs ≠ []) :
    killSelected w = ({ w with isConfirmingKillAll := true }, []) ∧
    confirmKillAll w =
      ({ w with selectedJobs := [], isConfirmingKillAll := false },
       w.selectedJobs,
       ["[DEV] Would kill jobs " ++ String.intercalate " " w.selectedJobs]) := by
  unfold killSelected confirmKillAll
  rw [if_neg h, if_neg h]
  exact ⟨rfl, rfl⟩

/-- Fixture for the batch-kill claim: one job selected at arm time. -/
def wC1 : WebviewState := { initialWebview with selectedJobs := ["1"] }

/-- Claim C1 (counterexample): arm with selection `{1}`, then select job `2`,
then confirm: the committed ids are `1 2`, not the arm-time capture `{1}` —
the batch target list is not frozen at arm time. -/
theorem c1_counterexample :
    (killSelected wC1).1.selectedJobs = ["1"] ∧
    (confirmKillAll (toggleSelection (killSelected wC1).1 "2" false)).2.1 = ["1", "2"] ∧
    "2" ∉ (killSelected wC1).1.selectedJobs := by
  decide

/-- Witness for the amended batch-kill claim at a nonempty selection. -/
theorem c1_witness :
    killSelected wC1 = ({ wC1 with isConfirmingKillAll := true }, []) ∧
    confirmKillAll wC1 =
      ({ wC1 with selectedJobs := [], isConfirmingKillAll := false },
       wC1.selectedJobs,
       ["[DEV] Would kill jobs " ++ String.intercalate " " wC1.selectedJobs]) :=
  c1_amended_commit_is_live_selection wC1 (by decide)

/-! ### Claim C3 -/

/-- Claim C3 (amended): a pattern that fails to compile never clears prior
state in any path; the tree provider's `setFilter` surfaces the
`Invalid regex pattern` message, but the webview handlers `regexChange` and
`regexEnter` silently ignore the invalid pattern, with no user-visible
message at all. -/
theorem c3_amended_invalid_pattern (pat : String) (h : compileRegex pat = none)
    (p : ProviderState) (w : WebviewState) (jobs : List Job) :
    setFilter p (some pat) = (p, ["Invalid regex pattern"]) ∧
    regexChange pat w = (w, []) ∧
    regexEnter pat jobs w = (w, []) := by
  have hne : pat ≠ "" := by
    intro he
    subst he
    exact absurd h (by decide)
  refine ⟨?_, ?_, ?_⟩
  · simp [setFilter, hne, h]
  · simp [regexChange, hne, h]
  · simp [regexEnter, hne, h]

/-- Fixture for the invalid-pattern claim: prior selection `{7}`. -/
def wC3 : WebviewState := { initialWebview with selectedJobs := ["7"] }

/-- Claim C3 (counterexample): the invalid pattern `(` through the webview
handlers leaves the prior selection `{7}` exactly unchanged but surfaces *no*
user-visible error — the message list is empty, a silent no-op. -/
theorem c3_counterexample :
    compileRegex "(" = none ∧
    regexChange "(" wC3 = (wC3, []) ∧
    regexEnter "(" [] wC3 = (wC3, []) ∧
    wC3.selectedJobs = ["7"] := by
  decide

/-- Witness for the amended invalid-pattern claim at the pattern `(`. -/
theorem c3_witness :
    setFilter initialProvider (some "(") = (initialProvider, ["Invalid regex pattern"]) ∧
    regexChange "(" initialWebview = (initialWebview, []) ∧
    regexEnter "(" [] initialWebview = (initialWebview, []) :=
  c3_amended_invalid_pattern "(" (by decide) initialProvider initialWebview []

/-! ### Claim C8 -/

/-- Claim C8 (amended): `requestKill` on an already-pending id is a no-op and
requesting twice equals requesting once; but `confirmKill` never fails with
`NotPending` — whenever the job id occurs in the snapshot it dispatches the
kill and clears the pending entry regardless of whether the id was pending,
so a second `confirmKill` dispatches again. -/
theorem c8_amended_confirm_dispatches (p : ProviderState) (jobs : List Job) (id : String)
    (job : Job) (h : jobs.find? (fun j => j.jobId == id) = some job) :
    (handleConfirmKill p jobs id).2 = ["[DEV] Would kill job " ++ id] ∧
    (handleConfirmKill p jobs id).1 = clearJobToConfirm p id ∧
    handleKill (handleKill p jobs id) jobs id = handleKill p jobs id ∧
    (id ∈ p.jobsToConfirm → handleKill p jobs id = p) := by
  have hid : job.jobId = id := by
    have hfind := List.find?_some h
    simpa using hfind
  refine ⟨?_, ?_, ?_, ?_⟩
  · simp [handleConfirmKill, h, hid]
  · simp [handleConfirmKill, h, hid]
  · simp [handleKill, h, setJobToConfirm, setAdd_idem]
  · intro hpend
    simp [handleKill, h, setJobToConfirm, hid, setAdd, hpend]

/-- Fixture for the kill-confirmation claim: a running job with id `5`. -/
def jobR5 : Job := { jobId := "5", name := "train", status := "RUNNING", nodelist := "" }

/-- Fixture provider state with job `5` pending confirmation. -/
def pC8 : ProviderState := { initialProvider with jobsToConfirm := ["5"] }

/-- Claim C8 (counterexample): `confirmKill` on id `5` while the
pending-confirmation set is empty does not fail — it dispatches the kill
message anyway. -/
theorem c8_counterexample :
    initialProvider.jobsToConfirm = [] ∧
    handleConfirmKill initialProvider [jobR5] "5" =
      (initialProvider, ["[DEV] Would kill job 5"]) := by
  decide

/-- Witness for the amended kill-confirmation claim, with id `5` pending. -/
theorem c8_witness :
    (handleConfirmKill pC8 [jobR5] "5").2 = ["[DEV] Would kill job 5"] ∧
    handleKill pC8 [jobR5] "5" = pC8 :=
  ⟨(c8_amended_confirm_dispatches pC8 [jobR5] "5" jobR5 (by decide)).1,
   (c8_amended_confirm_dispatches pC8 [jobR5] "5" jobR5 (by decide)).2.2.2 (by decide)⟩

/-! ### Claim C7 -/

theorem getVisibleJobs_mem (w : WebviewState) (jobs : List Job) (j : Job) :
    j ∈ getVisibleJobs w jobs ↔
      j ∈ jobs ∧ (j.status = "RUNNING" ∨ j.status = "COMPLETING" ∨
        (w.isScheduledJobsExpanded = true ∧ j.status = "PENDING") ∨
        (w.isPastJobsExpanded = true ∧ (j.status = "COMPLETED" ∨ j.status = "FAILED"))) := by
  unfold getVisibleJobs
  cases hs : w.isScheduledJobsExpanded <;> cases hp : w.isPastJobsExpanded <;>
    simp [List.mem_append, List.mem_filter] <;> tauto

/-- Claim C7 (amended): the visible set is a deterministic function of the
snapshot and the two expansion flags, never consulting the filter: a job is
in it iff it is in the snapshot and is `RUNNING`/`COMPLETING`, or `PENDING`
with the scheduled section expanded, or `COMPLETED`/`FAILED` with the past
section expanded. In particular jobs of collapsed sections are never
visible — but neither are terminal statuses other than `COMPLETED`/`FAILED`
(e.g. `CANCELLED`), even with the past section expanded. -/
theorem c7_amended_visible_membership (w : WebviewState) (jobs : List Job) (j : Job) :
    j ∈ getVisibleJobs w jobs ↔
      j ∈ jobs ∧ (j.status = "RUNNING" ∨ j.status = "COMPLETING" ∨
        (w.isScheduledJobsExpanded = true ∧ j.status = "PENDING") ∨
        (w.isPastJobsExpanded = true ∧ (j.status = "COMPLETED" ∨ j.status = "FAILED"))) :=
  getVisibleJobs_mem w jobs j

/-- Fixture for the visibility claim: a terminal `CANCELLED` job. -/
def jobCancelled : Job := { jobId := "9", name := "x", status := "CANCELLED", nodelist := "" }

/-- Fixture webview state with both collapsible sections expanded. -/
def wBothExp : WebviewState :=
  { initialWebview with isScheduledJobsExpanded := true, isPastJobsExpanded := true }

/-- Claim C7 (counterexample): a terminal-status job (`CANCELLED`) is not in
the visible set even though the historical section is expanded — the code
admits only `COMPLETED` and `FAILED` there. -/
theorem c7_counterexample :
    getVisibleJobs wBothExp [jobCancelled] = [] ∧
    jobCancelled.status = "CANCELLED" ∧
    wBothExp.isPastJobsExpanded = true := by
  decide

/-! ### Claim C4 -/

/-- Claim C4 (amended): the rendered sequence lists the Active section, then
the Scheduled section if expanded, then the capped Historical section if
expanded; each segment is drawn from the snapshot sorted by the *code's*
priority table (`RUNNING` 0, `PENDING` 1, `COMPLETING` 2, `FAILED` 3,
everything else — including `COMPLETED`/`FINISHED` — 999) with names as
tie-break. Within Active this puts Running before Completing; within
Historical it puts Failed first but leaves `COMPLETED`/`FINISHED` tied with
all other terminal statuses, ordered by name. -/
theorem c4_amended_visible_ordering (w : WebviewState) (jobs : List Job) (n : Nat) :
    visibleSeq w jobs n =
      (sortJobs jobs).filter isActiveB ++
        (if w.isScheduledJobsExpanded then (sortJobs jobs).filter isPendingB else []) ++
        (if w.isPastJobsExpanded then ((sortJobs jobs).filter isHistB).take n else []) ∧
    List.Sorted jobLe ((sortJobs jobs).filter isActiveB) ∧
    List.Sorted jobLe ((sortJobs jobs).filter isPendingB) ∧
    List.Sorted jobLe (((sortJobs jobs).filter isHistB).take n) ∧
    List.Perm ((sortJobs jobs).filter isActiveB) (jobs.filter isActiveB) ∧
    List.Perm ((sortJobs jobs).filter isPendingB) (jobs.filter isPendingB) ∧
    List.Perm ((sortJobs jobs).filter isHistB) (jobs.filter isHistB) := by
  refine ⟨rfl, (sortJobs_sorted jobs).filter _, (sortJobs_sorted jobs).filter _, ?_,
    (sortJobs_perm jobs).filter _, (sortJobs_perm jobs).filter _,
    (sortJobs_perm jobs).filter _⟩
  exact ((sortJobs_sorted jobs).filter _).sublist (List.take_sublist n _)

/-- Fixture jobs for the ordering claim: a `COMPLETED` job named `z` and a
`CANCELLED` job named `a`, both in the Historical section. -/
def jobZComp : Job := { jobId := "1", name := "z", status := "COMPLETED", nodelist := "" }

def jobACanc : Job := { jobId := "2", name := "a", status := "CANCELLED", nodelist := "" }

/-- Fixture webview state with the past section expanded. -/
def wPastExp : WebviewState := { initialWebview with isPastJobsExpanded := true }

/-- Claim C4 (counterexample): the spec's priority rule puts
`COMPLETED`/`FINISHED` strictly before any other terminal status, but the
rendered sequence orders the `CANCELLED` job named `a` before the
`COMPLETED` job named `z` — the code ties all non-`FAILED` terminal statuses
and falls back to names. -/
theorem c4_counterexample :
    visibleSeq wPastExp [jobZComp, jobACanc] 25 = [jobACanc, jobZComp] ∧
    specStatusPriority jobZComp.status < specStatusPriority jobACanc.status := by
  decide

/-! ### Claim C5 -/

/-- Claim C5 (amended): the *rendered* historical section is exactly the
first `min n total` historical jobs of the ordering rule; but the visible
set used by select-all and bulk-filter (`getVisibleJobs`) is not capped —
with the past section expanded, select-all selects every `COMPLETED` or
`FAILED` job of the snapshot, including those beyond the cap. -/
theorem c5_amended_cap_render_only (jobs : List Job) (n : Nat) (w : WebviewState)
    (hpast : w.isPastJobsExpanded = true) :
    (updateViewSections jobs n).2.2 = ((sortJobs jobs).filter isHistB).take n ∧
    (updateViewSections jobs n).2.2.length = min n (jobs.filter isHistB).length ∧
    (∀ j ∈ jobs, (j.status = "COMPLETED" ∨ j.status = "FAILED") →
      j.jobId ∈ (selectAllOp w jobs true).selectedJobs) := by
  refine ⟨rfl, ?_, ?_⟩
  · show (((sortJobs jobs).filter isHistB).take n).length = min n (jobs.filter isHistB).length
    rw [List.length_take]
    congr 1
    exact ((sortJobs_perm jobs).filter _).length_eq
  · intro j hj hst
    have hvis : j ∈ getVisibleJobs w jobs := by
      rw [getVisibleJobs_mem]
      exact ⟨hj, Or.inr (Or.inr (Or.inr ⟨hpast, hst⟩))⟩
    show j.jobId ∈ (getVisibleJobs w jobs).foldl (fun s job => setAdd s job.jobId) w.selectedJobs
    rw [mem_foldl_setAdd]
    exact Or.inr (List.mem_map.mpr ⟨j, hvis, rfl⟩)

/-- Fixture historical jobs for the cap claim. -/
def jobH1 : Job := { jobId := "h1", name := "a", status := "COMPLETED", nodelist := "" }

def jobH2 : Job := { jobId := "h2", name := "b", status := "COMPLETED", nodelist := "" }

/-- Fixture webview state for the cap claim, past section expanded. -/
def wC5 : WebviewState := { initialWebview with isPastJobsExpanded := true }

/-- Claim C5 (counterexample): with cap 1 and two historical jobs, the
rendered sequence shows only `h1`, yet select-all selects both `h1` and
`h2` — historical jobs beyond the cap are not excluded from select-all. -/
theorem c5_counterexample :
    (visibleSeq wC5 [jobH1, jobH2] 1).map Job.jobId = ["h1"] ∧
    "h2" ∉ (visibleSeq wC5 [jobH1, jobH2] 1).map Job.jobId ∧
    (selectAllOp wC5 [jobH1, jobH2] true).selectedJobs = ["h1", "h2"] := by
  decide

/-- Witness for the amended cap claim: cap 1, two completed jobs. -/
theorem c5_witness :
    (updateViewSections [jobH1, jobH2] 1).2.2.length =
      min 1 ([jobH1, jobH2].filter isHistB).length ∧
    "h2" ∈ (selectAllOp wC5 [jobH1, jobH2] true).selectedJobs :=
  ⟨(c5_amended_cap_render_only [jobH1, jobH2] 1 wC5 (by decide)).2.1,
   (c5_amended_cap_render_only [jobH1, jobH2] 1 wC5 (by decide)).2.2 jobH2 (by decide)
     (by decide)⟩

end SlurmVscode
